import Mathlib

/-!
Shallow embedding of the clawmail message store (src/api.ts, src/search.ts,
src/labels.ts, src/drafts.ts, src/db/schema.ts).

Relations are Lean lists of records mirroring the SQLite tables of
src/db/schema.ts; each HTTP handler or library function becomes a pure
function from a `Store` (plus the parameters the code reads) to a result
and an updated `Store`.  SQL `SELECT ... ORDER BY created_at DESC LIMIT l
OFFSET o` becomes filter / mergeSort / drop / take; `executeTakeFirst`
becomes `List.find?`; SQLite `LIKE` (no ESCAPE clause appears in the
source, so the backslash is an ordinary character) becomes `likeMatch`
with `%` and `_` wildcards.  The external FTS5 index is abstracted as an
`Except Unit (Msg → Bool)` argument: evaluating the MATCH either raises
(the caught syntax-error case) or yields a row predicate; relevance rank
is an abstract key.
-/

/-- Direction of a message, `direction` column of `messages`. -/
inductive Direction where
  | inbound
  | outbound
deriving DecidableEq, Repr

/-- Row of the `threads` table (schema.ts `ThreadTable`). -/
structure Thread where
  id : String
  subject : String
  last_message_at : Nat
  message_count : Nat
  created_at : Nat
deriving DecidableEq, Repr

/-- Row of the `messages` table (schema.ts `MessageTable`).  Note the table
has no `references` column: reply chains persist only `in_reply_to`. -/
structure Msg where
  id : String
  thread_id : String
  message_id : Option String
  in_reply_to : Option String
  «from» : String
  «to» : String
  cc : Option String
  bcc : Option String
  subject : String
  body_text : Option String
  body_html : Option String
  headers : Option String
  direction : Direction
  approved : Nat
  status : Option String
  archived : Nat
  created_at : Nat
deriving DecidableEq, Repr

/-- Row of the `attachments` table (schema.ts `AttachmentTable`). -/
structure Attachment where
  id : String
  message_id : String
  filename : Option String
  content_type : Option String
  size : Option Nat
  r2_key : String
  created_at : Nat
deriving DecidableEq, Repr

/-- Row of the `approved_senders` table (schema.ts `ApprovedSenderTable`). -/
structure ApprovedSender where
  email : String
  name : Option String
  created_at : Nat
deriving DecidableEq, Repr

/-- Row of the `message_labels` table, composite key (message_id, label). -/
structure MessageLabel where
  message_id : String
  label : String
  created_at : Nat
deriving DecidableEq, Repr

/-- Row of the `drafts` table (schema.ts `DraftTable`). -/
structure Draft where
  id : String
  thread_id : Option String
  «to» : Option String
  cc : Option String
  bcc : Option String
  subject : String
  body_text : String
  created_at : Nat
  updated_at : Nat
deriving DecidableEq, Repr

/-- The whole database (schema.ts `Database`). -/
structure Store where
  threads : List Thread
  messages : List Msg
  attachments : List Attachment
  approved_senders : List ApprovedSender
  message_labels : List MessageLabel
  drafts : List Draft
deriving DecidableEq, Repr

/-- Insert into a le-sorted list, keeping it sorted. -/
def insertSorted {α : Type} (le : α → α → Bool) (x : α) : List α → List α
  | [] => [x]
  | y :: t => if le x y then x :: y :: t else y :: insertSorted le x t

/-- Insertion sort; SQL leaves the order of ties unspecified, so any
deterministic sort by the key is a faithful model of ORDER BY. -/
def sortBy {α : Type} (le : α → α → Bool) : List α → List α
  | [] => []
  | x :: t => insertSorted le x (sortBy le t)

/-- ORDER BY created_at DESC. -/
def sortDescCreated (l : List Msg) : List Msg :=
  sortBy (fun a b => b.created_at ≤ a.created_at) l

/-- ORDER BY created_at ASC. -/
def sortAscCreated (l : List Msg) : List Msg :=
  sortBy (fun a b => a.created_at ≤ b.created_at) l

/-- Disjunction of `f` over every suffix of the text, the `%` step of
LIKE matching. -/
def likeScan (f : List Char → Bool) : List Char → Bool
  | [] => f []
  | c :: ts => f (c :: ts) || likeScan f ts

/-- SQLite LIKE matching on the whole string: `%` matches any sequence,
`_` any single character, every other character (including backslash,
since the source never attaches an ESCAPE clause) matches literally.
Case folding is omitted: both code paths under comparison go through the
same matcher, so the claims are insensitive to it. -/
def likeMatch : List Char → List Char → Bool
  | [], t => t.isEmpty
  | '%' :: ps, t => likeScan (likeMatch ps) t
  | '_' :: _, [] => false
  | '_' :: ps, _ :: ts => likeMatch ps ts
  | _ :: _, [] => false
  | p :: ps, c :: ts => p == c && likeMatch ps ts

/-- LIKE containment test `col LIKE '%' || pat || '%'` as built by both
fallback paths; a NULL column (`body_text`) never matches. -/
def likeContains (pat : String) (col : Option String) : Bool :=
  match col with
  | none => false
  | some s => likeMatch ('%' :: pat.data ++ ['%']) s.data

/-- The regex replace of search.ts `escapeLike`: prefix each of `%`, `_`
and backslash with a backslash. -/
def escapeLike (s : String) : String :=
  ⟨s.data.foldr
    (fun c acc => if c = '%' ∨ c = '_' ∨ c = '\\' then '\\' :: c :: acc else c :: acc) []⟩

/-- GET /api/messages (api.ts 106-136): approved = 1, archived = 0 unless
include_archived, optional direction / from / label filters, ordered by
created_at DESC, OFFSET then LIMIT. -/
def listMessages (s : Store) (lim off : Nat) (dirF : Option Direction)
    (fromF labF : Option String) (incArch : Bool) : List Msg :=
  let base := s.messages.filter (fun m =>
    m.approved == 1
    && (incArch || m.archived == 0)
    && (match dirF with | none => true | some d => m.direction == d)
    && (match fromF with | none => true | some f => m.«from» == f)
    && (match labF with
        | none => true
        | some l => s.message_labels.any (fun r => r.label == l && r.message_id == m.id)))
  ((sortDescCreated base).drop off).take lim

/-- GET /api/messages/:id (api.ts 139-168): the row with this id and
approved = 1, together with its attachments and labels; none = 404. -/
def getMessage (s : Store) (id : String) :
    Option (Msg × List Attachment × List String) :=
  match s.messages.find? (fun m => m.id == id && m.approved == 1) with
  | none => none
  | some m =>
    some (m, s.attachments.filter (fun a => a.message_id == id),
          (s.message_labels.filter (fun r => r.message_id == id)).map (fun r => r.label))

/-- Result of GET /api/attachments/:id. -/
inductive AttachOut where
  | notFound
  | dataNotFound
  | ok (data : String) (contentType : String) (filename : String)
deriving DecidableEq, Repr

/-- GET /api/attachments/:id (api.ts 172-201): look up the attachment,
then its message; 404 unless the message exists with approved = 1; then
fetch the blob (`r2` abstracts the external blob store). -/
def getAttachment (s : Store) (r2 : String → Option String) (id : String) : AttachOut :=
  match s.attachments.find? (fun a => a.id == id) with
  | none => .notFound
  | some att =>
    match s.messages.find? (fun m => m.id == att.message_id) with
    | none => .notFound
    | some msg =>
      if msg.approved ≠ 1 then .notFound
      else
        match r2 att.r2_key with
        | none => .dataNotFound
        | some data =>
          .ok data (att.content_type.getD "application/octet-stream")
            (att.filename.getD "attachment")

/-- The FTS5 primary search (the try-block of api.ts 212-223 and of
search.ts 14-25): `ftsMatch` abstracts the evaluated MATCH predicate of
the index join, `rank` the relevance key of ORDER BY rank; the SQL fixes
approved = 1 and the archived filter. -/
def searchPrimary (s : Store) (ftsMatch : Msg → Bool) (rank : Msg → Nat)
    (lim : Nat) (incArch : Bool) : List Msg :=
  (sortBy (fun a b => rank a ≤ rank b)
    (s.messages.filter (fun m =>
      ftsMatch m && m.approved == 1 && (incArch || m.archived == 0)))).take lim

/-- The LIKE fallback query shared verbatim (apart from the pattern) by
search.ts 28-43 and api.ts 226-242: approved = 1, subject or body_text
LIKE the pattern, archived filter, ORDER BY created_at DESC, LIMIT. -/
def likeFallback (s : Store) (pat : String) (lim : Nat) (incArch : Bool) : List Msg :=
  (sortDescCreated (s.messages.filter (fun m =>
    m.approved == 1
    && (likeContains pat (some m.subject) || likeContains pat m.body_text)
    && (incArch || m.archived == 0)))).take lim

/-- Fallback branch of search.ts `searchMessages`: the query is passed
through `escapeLike` before the pattern is built. -/
def searchFallbackLib (s : Store) (q : String) (lim : Nat) (incArch : Bool) : List Msg :=
  likeFallback s (escapeLike q) lim incArch

/-- Fallback branch of the GET /api/search handler: the raw query is
interpolated into the pattern unescaped. -/
def searchFallbackApi (s : Store) (q : String) (lim : Nat) (incArch : Bool) : List Msg :=
  likeFallback s q lim incArch

/-- search.ts 8-45 `searchMessages`: run the primary FTS query; if its
evaluation throws (`fts = .error`), catch and run the escaped LIKE
fallback. -/
def searchMessages (s : Store) (q : String) (lim : Nat) (incArch : Bool)
    (fts : Except Unit (Msg → Bool)) (rank : Msg → Nat) : List Msg :=
  match fts with
  | .ok m => searchPrimary s m rank lim incArch
  | .error _ => searchFallbackLib s q lim incArch

/-- Result of GET /api/search, recording which branch produced it. -/
inductive SearchOut where
  | invalidInput
  | primary (rows : List Msg)
  | fallback (rows : List Msg)
deriving DecidableEq, Repr

/-- GET /api/search (api.ts 204-244): `q = none` models a missing
parameter; `if (!q)` rejects exactly a missing or empty string, then the
try/catch runs the primary FTS query or, on a thrown error, the
unescaped LIKE fallback. -/
def apiSearch (s : Store) (q : Option String) (lim : Nat) (incArch : Bool)
    (fts : Except Unit (Msg → Bool)) (rank : Msg → Nat) : SearchOut :=
  match q with
  | none => .invalidInput
  | some qs =>
    if qs = "" then .invalidInput
    else
      match fts with
      | .ok m => .primary (searchPrimary s m rank lim incArch)
      | .error _ => .fallback (searchFallbackApi s qs lim incArch)

/-- The approved messages of a thread as returned by GET /api/threads/:id
(api.ts 283-289): thread_id match, approved = 1, created_at ASC. -/
def threadMessages (s : Store) (tid : String) : List Msg :=
  sortAscCreated (s.messages.filter (fun m => m.thread_id == tid && m.approved == 1))

/-- Result of GET /api/threads/:id. -/
inductive ThreadOut where
  | notFound
  | ok (t : Thread) (msgs : List Msg)
deriving DecidableEq, Repr

/-- GET /api/threads/:id (api.ts 271-294): 404 when the thread row is
absent or none of its messages is approved. -/
def getThread (s : Store) (id : String) : ThreadOut :=
  match s.threads.find? (fun t => t.id == id) with
  | none => .notFound
  | some t =>
    let msgs := threadMessages s id
    if msgs.isEmpty then .notFound else .ok t msgs

/-- A single `INSERT ... ON CONFLICT (message_id, label) DO NOTHING` row:
a no-op when the composite key is already present. -/
def insertLabelIfAbsent (rows : List MessageLabel) (mid lab : String) (now : Nat) :
    List MessageLabel :=
  if rows.any (fun r => r.message_id == mid && r.label == lab) then rows
  else rows ++ [⟨mid, lab, now⟩]

/-- labels.ts 4-31 `addLabels` (the POST /api/messages/:id/labels handler,
api.ts 299-328, performs the same per-row conflict-ignoring inserts):
null unless the message exists with approved = 1; then insert each label,
duplicates ignored, and return all labels of the message. -/
def addLabels (s : Store) (mid : String) (labels : List String) (now : Nat) :
    Option (List String) × Store :=
  match s.messages.find? (fun m => m.id == mid) with
  | none => (none, s)
  | some m =>
    if m.approved ≠ 1 then (none, s)
    else
      let rows := labels.foldl (fun acc l => insertLabelIfAbsent acc mid l now)
        s.message_labels
      (some ((rows.filter (fun r => r.message_id == mid)).map (fun r => r.label)),
        {s with message_labels := rows})

/-- labels.ts 33-53 `removeLabel`: null unless the message exists with
approved = 1; otherwise delete the (message_id, label) row. -/
def removeLabel (s : Store) (mid lab : String) : Option String × Store :=
  match s.messages.find? (fun m => m.id == mid) with
  | none => (none, s)
  | some m =>
    if m.approved ≠ 1 then (none, s)
    else
      (some lab,
        {s with message_labels :=
          s.message_labels.filter (fun r => !(r.message_id == mid && r.label == lab))})

/-- DELETE /api/messages/:id/labels/:label (api.ts 331-343): the handler
deletes the rows and answers `removed` without ever reading the message
or its approved flag. -/
def apiRemoveLabel (s : Store) (mid lab : String) : String × Store :=
  (lab,
    {s with message_labels :=
      s.message_labels.filter (fun r => !(r.message_id == mid && r.label == lab))})

/-- POST /api/approved-senders (api.ts 536-563): lowercase the email,
upsert into approved_senders updating only `name` on conflict, then flip
approved 0 → 1 on every message from that sender, returning how many
rows the UPDATE touched. -/
def approve (s : Store) (email : String) (name : Option String) (now : Nat) :
    Store × Nat :=
  let normalized := email.toLower
  let senders :=
    if s.approved_senders.any (fun e => e.email == normalized) then
      s.approved_senders.map (fun e =>
        if e.email == normalized then {e with name := name} else e)
    else s.approved_senders ++ [⟨normalized, name, now⟩]
  let hit := fun (m : Msg) => m.«from» == normalized && m.approved == 0
  let count := (s.messages.filter hit).length
  ({s with approved_senders := senders,
           messages := s.messages.map (fun m => if hit m then {m with approved := 1} else m)},
    count)

/-- DELETE /api/approved-senders/:email (api.ts 566-576): lowercase the
email and delete the allow-list row; nothing else is touched. -/
def revoke (s : Store) (email : String) : Store × String :=
  let normalized := email.toLower
  ({s with approved_senders :=
      s.approved_senders.filter (fun e => !(e.email == normalized))},
    normalized)

/-- drafts.ts 40-51 `getDraft`: the draft row with this id, if any. -/
def getDraft (s : Store) (id : String) : Option Draft :=
  s.drafts.find? (fun d => d.id == id)

/-- drafts.ts 147-161 `deleteDraft`: false when the row is absent;
otherwise delete it and answer true. -/
def deleteDraft (s : Store) (id : String) : Bool × Store :=
  match s.drafts.find? (fun d => d.id == id) with
  | none => (false, s)
  | some _ => (true, {s with drafts := s.drafts.filter (fun d => !(d.id == id))})

/-- Result of DELETE /api/drafts/:id. -/
inductive DeleteDraftOut where
  | notFound
  | deleted (id : String)
deriving DecidableEq, Repr

/-- DELETE /api/drafts/:id (api.ts 507-513): the handler runs the DELETE
unconditionally and always answers `deleted`; it never produces
`notFound`. -/
def apiDeleteDraft (s : Store) (id : String) : DeleteDraftOut × Store :=
  (.deleted id, {s with drafts := s.drafts.filter (fun d => !(d.id == id))})

/-- The `ORDER BY created_at DESC ... executeTakeFirst` of drafts.ts
115-120: a row of maximal created_at among the thread's messages (the
first such row in table order on ties). -/
def latestInThread (msgs : List Msg) (tid : String) : Option Msg :=
  (msgs.filter (fun m => m.thread_id == tid)).foldl
    (fun best m =>
      match best with
      | none => some m
      | some b => if m.created_at > b.created_at then some m else some b)
    none

/-- Threading metadata computed by drafts.ts 109-129 for a send. -/
structure ThreadCtx where
  inReplyTo : Option String
  references : Option String
  threadId : Option String
deriving DecidableEq, Repr

/-- drafts.ts 109-129: when the draft names a thread, read the latest
message of that thread; if it carries a provider message_id, that id
becomes in_reply_to, and references is built from that row's
`in_reply_to` column (the table stores no references chain) followed by
its message_id. -/
def threadCtx (msgs : List Msg) (tid? : Option String) : ThreadCtx :=
  match tid? with
  | none => ⟨none, none, none⟩
  | some tid =>
    match latestInThread msgs tid with
    | none => ⟨none, none, some tid⟩
    | some latest =>
      match latest.message_id with
      | none => ⟨none, none, some tid⟩
      | some mid =>
        ⟨some mid,
          some (match latest.in_reply_to with
                | some r => r ++ " " ++ mid
                | none => mid),
          some tid⟩

/-- Parameters handed to the external sender by drafts.ts 131-140. -/
structure SendParams where
  «to» : String
  subject : String
  body : String
  cc : Option String
  bcc : Option String
  inReplyTo : Option String
  references : Option String
  threadId : Option String
deriving DecidableEq, Repr

/-- Success value of the external sender (spec section 6). -/
structure SendResult where
  messageId : String
  dbId : String
  threadId : String
deriving DecidableEq, Repr

/-- Modelled from the spec: `sendEmail` lives in src/mail.ts, which is not
among the sources; only its callers are.  Per spec sections 4.5 and 6 the
external sender either fails — the error is propagated to the caller and
no state changes — or succeeds, in which case the Message is persisted
(direction outbound, approved 1, status "sent", provider message id
recorded, threading metadata attached, thread bookkeeping updated) before
control returns with providerMessageId / dbId / threadId.  `provider`
abstracts the transport outcome, `newDbId` / `newThreadId` the generated
identifiers, `fromEmail` the configured FROM_EMAIL. -/
def sendEmailSpec (s : Store) (p : SendParams) (provider : Except Unit String)
    (fromEmail newDbId newThreadId : String) (now : Nat) :
    Except Unit (SendResult × Store) :=
  match provider with
  | .error e => .error e
  | .ok pmid =>
    let tid := p.threadId.getD newThreadId
    let m : Msg :=
      { id := newDbId, thread_id := tid, message_id := some pmid,
        in_reply_to := p.inReplyTo, «from» := fromEmail, «to» := p.«to»,
        cc := p.cc, bcc := p.bcc, subject := p.subject,
        body_text := some p.body, body_html := none, headers := none,
        direction := .outbound, approved := 1, status := some "sent",
        archived := 0, created_at := now }
    let threads :=
      if s.threads.any (fun t => t.id == tid) then
        s.threads.map (fun t =>
          if t.id == tid then
            {t with last_message_at := now, message_count := t.message_count + 1}
          else t)
      else s.threads ++ [⟨tid, p.subject, now, 1, now⟩]
    .ok ({messageId := pmid, dbId := newDbId, threadId := tid},
      {s with messages := s.messages ++ [m], threads := threads})

/-- Result of drafts.ts `sendDraft` (and of POST /api/drafts/:id/send,
which inlines the same sequence). -/
inductive SendDraftOut where
  | errNotFound
  | errNoRecipient
  | upstreamFailure
  | sent (r : SendResult)
deriving DecidableEq, Repr

/-- drafts.ts 97-145 `sendDraft`: load the draft (error when absent or
`to` is null/empty), compute the thread context, call the sender, and
only then delete the draft.  A sender failure is a thrown error, so the
DELETE on line 142 is never reached and the state is returned untouched. -/
def sendDraft (s : Store) (id : String) (provider : Except Unit String)
    (fromEmail newDbId newThreadId : String) (now : Nat) :
    SendDraftOut × Store :=
  match getDraft s id with
  | none => (.errNotFound, s)
  | some d =>
    match d.«to» with
    | none => (.errNoRecipient, s)
    | some t =>
      if t = "" then (.errNoRecipient, s)
      else
        let ctx := threadCtx s.messages d.thread_id
        match sendEmailSpec s
            { «to» := t, subject := d.subject, body := d.body_text,
              cc := d.cc, bcc := d.bcc, inReplyTo := ctx.inReplyTo,
              references := ctx.references, threadId := ctx.threadId }
            provider fromEmail newDbId newThreadId now with
        | .error _ => (.upstreamFailure, s)
        | .ok (r, s1) =>
          (.sent r, {s1 with drafts := s1.drafts.filter (fun d2 => !(d2.id == id))})

/-- Membership through one sorted insert. -/
theorem mem_insertSorted {α : Type} {le : α → α → Bool} {x a : α} :
    ∀ {l : List α}, a ∈ insertSorted le x l ↔ a = x ∨ a ∈ l
  | [] => by simp [insertSorted]
  | y :: t => by
    simp only [insertSorted]
    by_cases h : le x y = true
    · rw [if_pos h]
      simp
    · rw [if_neg h]
      simp only [List.mem_cons, mem_insertSorted (l := t)]
      tauto

/-- The insertion sort permutes nothing in and nothing out. -/
theorem mem_sortBy {α : Type} {le : α → α → Bool} {a : α} :
    ∀ {l : List α}, a ∈ sortBy le l ↔ a ∈ l
  | [] => by simp [sortBy]
  | x :: t => by
    simp only [sortBy, mem_insertSorted, List.mem_cons, mem_sortBy (l := t)]

/-- Inserting into a le-sorted list keeps it le-sorted. -/
theorem pairwise_insertSorted {α : Type} {le : α → α → Bool}
    (htrans : ∀ a b c, le a b = true → le b c = true → le a c = true)
    (htotal : ∀ a b, (le a b || le b a) = true) (x : α) :
    ∀ {l : List α}, l.Pairwise (fun a b => le a b = true) →
      (insertSorted le x l).Pairwise (fun a b => le a b = true)
  | [], _ => by simp [insertSorted]
  | y :: t, hl => by
    obtain ⟨hy, ht⟩ := List.pairwise_cons.mp hl
    simp only [insertSorted]
    by_cases h : le x y = true
    · rw [if_pos h]
      apply List.pairwise_cons.mpr
      refine ⟨?_, hl⟩
      intro z hz
      rcases List.mem_cons.mp hz with rfl | hzt
      · exact h
      · exact htrans x y z h (hy z hzt)
    · rw [if_neg h]
      apply List.pairwise_cons.mpr
      have hyx : le y x = true := by
        have := htotal x y
        rw [Bool.or_eq_true] at this
        tauto
      refine ⟨?_, pairwise_insertSorted htrans htotal x ht⟩
      intro z hz
      rcases mem_insertSorted.mp hz with rfl | hzt
      · exact hyx
      · exact hy z hzt

/-- The insertion sort produces a le-sorted list. -/
theorem pairwise_sortBy {α : Type} {le : α → α → Bool}
    (htrans : ∀ a b c, le a b = true → le b c = true → le a c = true)
    (htotal : ∀ a b, (le a b || le b a) = true) :
    ∀ (l : List α), (sortBy le l).Pairwise (fun a b => le a b = true)
  | [] => by simp [sortBy]
  | x :: t => by
    simp only [sortBy]
    exact pairwise_insertSorted htrans htotal x (pairwise_sortBy htrans htotal t)

/-- Members of the DESC sort are exactly the members of the input. -/
theorem mem_sortDescCreated {m : Msg} {l : List Msg} :
    m ∈ sortDescCreated l ↔ m ∈ l := by
  simp [sortDescCreated, mem_sortBy]

/-- Members of the ASC sort are exactly the members of the input. -/
theorem mem_sortAscCreated {m : Msg} {l : List Msg} :
    m ∈ sortAscCreated l ↔ m ∈ l := by
  simp [sortAscCreated, mem_sortBy]

/-- Every row the shared LIKE fallback returns is an approved row of the
store satisfying the archived filter. -/
theorem mem_likeFallback {s : Store} {pat : String} {lim : Nat} {incArch : Bool}
    {m : Msg} (h : m ∈ likeFallback s pat lim incArch) :
    m ∈ s.messages ∧ m.approved = 1 ∧ (incArch = false → m.archived = 0) := by
  have h1 := List.mem_of_mem_take h
  rw [mem_sortDescCreated] at h1
  have h2 := List.mem_filter.mp h1
  obtain ⟨hmem, hp⟩ := h2
  simp only [Bool.and_eq_true, Bool.or_eq_true, beq_iff_eq] at hp
  refine ⟨hmem, hp.1.1, ?_⟩
  intro harch
  rcases hp.2 with h | h
  · rw [harch] at h; exact absurd h (by simp)
  · exact h

/-- Every row the primary FTS query returns is an approved row of the
store satisfying the archived filter. -/
theorem mem_searchPrimary {s : Store} {f : Msg → Bool} {rank : Msg → Nat}
    {lim : Nat} {incArch : Bool} {m : Msg}
    (h : m ∈ searchPrimary s f rank lim incArch) :
    m ∈ s.messages ∧ m.approved = 1 ∧ (incArch = false → m.archived = 0) := by
  have h1 := List.mem_of_mem_take h
  rw [mem_sortBy] at h1
  have h2 := List.mem_filter.mp h1
  obtain ⟨hmem, hp⟩ := h2
  simp only [Bool.and_eq_true, Bool.or_eq_true, beq_iff_eq] at hp
  refine ⟨hmem, hp.1.2, ?_⟩
  intro harch
  rcases hp.2 with h | h
  · rw [harch] at h; exact absurd h (by simp)
  · exact h

/-- Every row of a message listing is an approved row of the store. -/
theorem mem_listMessages {s : Store} {lim off : Nat} {dirF : Option Direction}
    {fromF labF : Option String} {incArch : Bool} {m : Msg}
    (h : m ∈ listMessages s lim off dirF fromF labF incArch) :
    m ∈ s.messages ∧ m.approved = 1 := by
  have h1 := List.mem_of_mem_take h
  have h2 := List.mem_of_mem_drop h1
  rw [mem_sortDescCreated] at h2
  have h3 := List.mem_filter.mp h2
  obtain ⟨hmem, hp⟩ := h3
  simp only [Bool.and_eq_true, beq_iff_eq] at hp
  exact ⟨hmem, hp.1.1.1.1⟩

/-- Every row of a thread read is an approved row of the store. -/
theorem mem_threadMessages {s : Store} {tid : String} {m : Msg}
    (h : m ∈ threadMessages s tid) : m ∈ s.messages ∧ m.approved = 1 := by
  have h1 := (mem_sortAscCreated (l := _)).mp h
  have h2 := List.mem_filter.mp h1
  obtain ⟨hmem, hp⟩ := h2
  simp only [Bool.and_eq_true, beq_iff_eq] at hp
  exact ⟨hmem, hp.2⟩

/-- With pairwise-distinct ids, the first row found by id is the row
itself. -/
theorem find?_msg_id {l : List Msg} {m : Msg}
    (hnd : (l.map Msg.id).Nodup) (hm : m ∈ l) :
    l.find? (fun x => x.id == m.id) = some m := by
  cases h : l.find? (fun x => x.id == m.id) with
  | none =>
    have := List.find?_eq_none.mp h m hm
    simp at this
  | some x =>
    have hx := List.mem_of_find?_eq_some h
    have hpx := List.find?_some h
    have hid : x.id = m.id := by simpa using hpx
    have heq : x = m := List.inj_on_of_nodup_map hnd hx hm hid
    rw [heq]

/-- With pairwise-distinct ids, the first attachment found by id is the
row itself. -/
theorem find?_att_id {l : List Attachment} {a : Attachment}
    (hnd : (l.map Attachment.id).Nodup) (ha : a ∈ l) :
    l.find? (fun x => x.id == a.id) = some a := by
  cases h : l.find? (fun x => x.id == a.id) with
  | none =>
    have := List.find?_eq_none.mp h a ha
    simp at this
  | some x =>
    have hx := List.mem_of_find?_eq_some h
    have hpx := List.find?_some h
    have hid : x.id = a.id := by simpa using hpx
    have heq : x = a := List.inj_on_of_nodup_map hnd hx ha hid
    rw [heq]

/-- A map that fixes every member is the identity. -/
theorem map_eq_self_of_fix {α : Type} {f : α → α} :
    ∀ {l : List α}, (∀ x ∈ l, f x = x) → l.map f = l
  | [], _ => rfl
  | x :: t, h => by
    simp only [List.map_cons]
    rw [h x (by simp), map_eq_self_of_fix (fun y hy => h y (by simp [hy]))]

/-- The max-by-created_at fold: its output is drawn from the input or the
accumulator and dominates both. -/
theorem argmax_fold_spec (l : List Msg) :
    ∀ (acc : Option Msg) (m : Msg),
      l.foldl (fun best x =>
        match best with
        | none => some x
        | some b => if x.created_at > b.created_at then some x else some b) acc = some m →
      (acc = some m ∨ m ∈ l) ∧ (∀ x ∈ l, x.created_at ≤ m.created_at) ∧
        (∀ b, acc = some b → b.created_at ≤ m.created_at) := by
  induction l with
  | nil =>
    intro acc m h
    simp only [List.foldl_nil] at h
    refine ⟨Or.inl h, by simp, fun b hb => ?_⟩
    rw [hb] at h
    cases h
    exact Nat.le_refl _
  | cons x t ih =>
    intro acc m h
    simp only [List.foldl_cons] at h
    cases acc with
    | none =>
      obtain ⟨hmem, hle, hacc⟩ := ih (some x) m h
      refine ⟨?_, ?_, ?_⟩
      · rcases hmem with heq | hm
        · cases heq; exact Or.inr (List.mem_cons_self _ _)
        · exact Or.inr (List.mem_cons_of_mem _ hm)
      · intro y hy
        rcases List.mem_cons.mp hy with rfl | hyt
        · exact hacc y rfl
        · exact hle y hyt
      · intro b hb
        cases hb
    | some b =>
      by_cases hgt : x.created_at > b.created_at
      · obtain ⟨hmem, hle, hacc⟩ := ih (some x) m (by simpa [hgt] using h)
        refine ⟨?_, ?_, ?_⟩
        · rcases hmem with heq | hm
          · cases heq; exact Or.inr (List.mem_cons_self _ _)
          · exact Or.inr (List.mem_cons_of_mem _ hm)
        · intro y hy
          rcases List.mem_cons.mp hy with rfl | hyt
          · exact hacc y rfl
          · exact hle y hyt
        · intro b2 hb2
          cases hb2
          exact Nat.le_trans (Nat.le_of_lt hgt) (hacc x rfl)
      · obtain ⟨hmem, hle, hacc⟩ := ih (some b) m (by simpa [hgt] using h)
        refine ⟨?_, ?_, ?_⟩
        · rcases hmem with heq | hm
          · exact Or.inl heq
          · exact Or.inr (List.mem_cons_of_mem _ hm)
        · intro y hy
          rcases List.mem_cons.mp hy with rfl | hyt
          · exact Nat.le_trans (Nat.le_of_not_lt hgt) (hacc b rfl)
          · exact hle y hyt
        · intro b2 hb2
          cases hb2
          exact hacc b rfl

/-- drafts.ts picks a maximal-created_at message of the thread. -/
theorem latestInThread_spec {msgs : List Msg} {tid : String} {m : Msg}
    (h : latestInThread msgs tid = some m) :
    m ∈ msgs ∧ m.thread_id = tid ∧
      ∀ x ∈ msgs, x.thread_id = tid → x.created_at ≤ m.created_at := by
  have := argmax_fold_spec (msgs.filter (fun x => x.thread_id == tid)) none m h
  obtain ⟨hmem, hle, -⟩ := this
  rcases hmem with habs | hmem
  · cases habs
  · have hm := List.mem_filter.mp hmem
    refine ⟨hm.1, by simpa using hm.2, ?_⟩
    intro x hx htid
    exact hle x (List.mem_filter.mpr ⟨hx, by simp [htid]⟩)

/-- On character lists free of `%`, `_` and backslash, the escape fold is
the identity. -/
theorem escapeFold_eq_self :
    ∀ (l : List Char), (∀ c ∈ l, ¬(c = '%' ∨ c = '_' ∨ c = '\\')) →
      List.foldr (fun c acc =>
        if c = '%' ∨ c = '_' ∨ c = '\\' then '\\' :: c :: acc else c :: acc) [] l = l
  | [], _ => rfl
  | c :: t, h => by
    simp only [List.foldr_cons]
    rw [if_neg (h c (by simp))]
    rw [escapeFold_eq_self t (fun y hy => h y (by simp [hy]))]

/-- On strings free of `%`, `_` and backslash, `escapeLike` is the
identity. -/
theorem escapeLike_eq_self {q : String}
    (h : q.data.all (fun c => !(c == '%' || c == '_' || c == '\\')) = true) :
    escapeLike q = q := by
  apply String.ext
  simp only [List.all_eq_true] at h
  show List.foldr _ [] q.data = q.data
  apply escapeFold_eq_self
  intro c hc
  have := h c hc
  simp only [Bool.not_eq_true', Bool.or_eq_false_iff, beq_eq_false_iff_ne, ne_eq] at this
  tauto

/-- One conflict-ignoring label insert, observed through the existence of
a (mid, lab) row. -/
theorem insertLabelIfAbsent_any (rows : List MessageLabel) (mid l lab : String) (now : Nat) :
    ((insertLabelIfAbsent rows mid l now).any (fun r => r.message_id == mid && r.label == lab))
      = (rows.any (fun r => r.message_id == mid && r.label == lab) || (lab == l)) := by
  unfold insertLabelIfAbsent
  by_cases hg : rows.any (fun r => r.message_id == mid && r.label == l) = true
  · rw [if_pos hg]
    by_cases hl : lab = l
    · subst hl
      simp [hg]
    · have : (lab == l) = false := by simp [hl]
      simp [this]
  · rw [if_neg hg]
    by_cases hl : lab = l
    · subst hl
      simp
    · have h1 : (l == lab) = false := by simp [Ne.symm hl]
      have h2 : (lab == l) = false := by simp [hl]
      simp [h1, h2]

/-- The whole label-insert fold, observed through the existence of a
(mid, lab) row: it adds exactly the labels of the input list. -/
theorem labelFold_any (mid : String) (now : Nat) (lab : String) :
    ∀ (labels : List String) (rows : List MessageLabel),
      ((labels.foldl (fun acc l => insertLabelIfAbsent acc mid l now) rows).any
          (fun r => r.message_id == mid && r.label == lab))
        = (rows.any (fun r => r.message_id == mid && r.label == lab) || labels.contains lab)
  | [], rows => by simp
  | l :: t, rows => by
    simp only [List.foldl_cons]
    rw [labelFold_any mid now lab t (insertLabelIfAbsent rows mid l now)]
    rw [insertLabelIfAbsent_any rows mid l lab now]
    simp only [List.contains_cons]
    rw [Bool.or_assoc]

/-- The empty database. -/
def emptyStore : Store := ⟨[], [], [], [], [], []⟩

/-- A pending (approved = 0) inbound message. -/
def exPending : Msg :=
  { id := "m1", thread_id := "T", message_id := some "pm1", in_reply_to := none,
    «from» := "alice@example.com", «to» := "me@example.com", cc := none, bcc := none,
    subject := "hello", body_text := some "pending body", body_html := none,
    headers := none, direction := .inbound, approved := 0, status := none,
    archived := 0, created_at := 5 }

/-- An attachment owned by the pending message. -/
def exAtt : Attachment :=
  { id := "a1", message_id := "m1", filename := some "f.txt",
    content_type := some "text/plain", size := some 3, r2_key := "k1", created_at := 5 }

/-- A store whose only message is pending and carries label "x". -/
def exStoreC1 : Store :=
  { threads := [⟨"T", "hello", 5, 1, 5⟩], messages := [exPending],
    attachments := [exAtt], approved_senders := [],
    message_labels := [⟨"m1", "x", 5⟩], drafts := [] }

/-- C1, counterexample to the claim as stated: in a store whose only
message has approved = 0 and carries label "x", the DELETE
/api/messages/:id/labels/:label handler answers `removed` and deletes the
row — label removal succeeded on an unapproved message instead of
returning NotFound. -/
theorem C1_counterexample :
    exPending.approved = 0
  ∧ exPending ∈ exStoreC1.messages
  ∧ exStoreC1.message_labels ≠ []
  ∧ (apiRemoveLabel exStoreC1 "m1" "x").1 = "x"
  ∧ (apiRemoveLabel exStoreC1 "m1" "x").2.message_labels = [] := by
  decide

/-- C1 (amended): for a message with approved = 0, listing, get-by-id,
primary search, both LIKE fallbacks, thread reads and attachment download
exclude it or answer NotFound, and label addition and labels.ts
`removeLabel` answer NotFound — but the DELETE label HTTP route performs
the removal unconditionally, never checking approval. -/
theorem C1_approval_gate (s : Store) (m : Msg) (a : Attachment)
    (r2 : String → Option String) (fts : Msg → Bool) (rank : Msg → Nat)
    (lim off now : Nat) (dirF : Option Direction) (fromF labF : Option String)
    (incArch : Bool) (tid q lab : String) (ls : List String)
    (hm : m ∈ s.messages) (h0 : m.approved = 0)
    (hnd : (s.messages.map Msg.id).Nodup)
    (hand : (s.attachments.map Attachment.id).Nodup)
    (ha : a ∈ s.attachments) (ham : a.message_id = m.id) :
    m ∉ listMessages s lim off dirF fromF labF incArch
  ∧ getMessage s m.id = none
  ∧ m ∉ searchPrimary s fts rank lim incArch
  ∧ m ∉ searchFallbackApi s q lim incArch
  ∧ m ∉ searchFallbackLib s q lim incArch
  ∧ m ∉ threadMessages s tid
  ∧ getAttachment s r2 a.id = .notFound
  ∧ addLabels s m.id ls now = (none, s)
  ∧ removeLabel s m.id lab = (none, s)
  ∧ apiRemoveLabel s m.id lab
      = (lab, {s with message_labels :=
          s.message_labels.filter (fun r => !(r.message_id == m.id && r.label == lab))}) := by
  have hone : ¬ m.approved = 1 := by rw [h0]; decide
  refine ⟨?_, ?_, ?_, ?_, ?_, ?_, ?_, ?_, ?_, rfl⟩
  · intro hmem
    exact hone (mem_listMessages hmem).2
  · unfold getMessage
    have : s.messages.find? (fun x => x.id == m.id && x.approved == 1) = none := by
      apply List.find?_eq_none.mpr
      intro x hx hpx
      simp only [Bool.and_eq_true, beq_iff_eq] at hpx
      have heq : x = m := List.inj_on_of_nodup_map hnd hx hm hpx.1
      rw [heq] at hpx
      exact hone hpx.2
    rw [this]
  · intro hmem
    exact hone (mem_searchPrimary hmem).2.1
  · intro hmem
    exact hone (mem_likeFallback hmem).2.1
  · intro hmem
    exact hone (mem_likeFallback hmem).2.1
  · intro hmem
    exact hone (mem_threadMessages hmem).2
  · have h1 : s.attachments.find? (fun x => x.id == a.id) = some a := find?_att_id hand ha
    have h2 : s.messages.find? (fun x => x.id == a.message_id) = some m := by
      rw [ham]
      exact find?_msg_id hnd hm
    simp [getAttachment, h1, h2, hone]
  · simp [addLabels, find?_msg_id hnd hm, hone]
  · simp [removeLabel, find?_msg_id hnd hm, hone]

/-- C1, witness: the amended theorem applied to the concrete pending
store. -/
theorem C1_approval_gate_witness :
    exPending ∉ listMessages exStoreC1 50 0 none none none false
  ∧ getMessage exStoreC1 exPending.id = none
  ∧ exPending ∉ searchPrimary exStoreC1 (fun _ => true) (fun _ => 0) 50 false
  ∧ exPending ∉ searchFallbackApi exStoreC1 "q" 50 false
  ∧ exPending ∉ searchFallbackLib exStoreC1 "q" 50 false
  ∧ exPending ∉ threadMessages exStoreC1 "T"
  ∧ getAttachment exStoreC1 (fun _ => none) exAtt.id = .notFound
  ∧ addLabels exStoreC1 exPending.id ["x", "y"] 7 = (none, exStoreC1)
  ∧ removeLabel exStoreC1 exPending.id "x" = (none, exStoreC1)
  ∧ apiRemoveLabel exStoreC1 exPending.id "x"
      = ("x", {exStoreC1 with message_labels := exStoreC1.message_labels.filter (fun r => !(r.message_id == exPending.id && r.label == "x"))}) :=
  C1_approval_gate exStoreC1 exPending exAtt (fun _ => none) (fun _ => true) (fun _ => 0)
    50 0 7 none none none false "T" "q" "x" ["x", "y"]
    (by decide) (by decide) (by decide) (by decide) (by decide) (by decide)

/-- A draft with a recipient, attached to thread "T". -/
def exDraft : Draft :=
  { id := "d1", thread_id := some "T", «to» := some "bob@example.com", cc := none,
    bcc := none, subject := "hi", body_text := "yo", created_at := 1, updated_at := 1 }

/-- A store holding only that draft. -/
def exStoreC2 : Store :=
  { threads := [], messages := [], attachments := [], approved_senders := [],
    message_labels := [], drafts := [exDraft] }

/-- C2: when the external sender fails, `sendDraft` surfaces the failure
with the whole store — draft included — unchanged and no Message row
created; when it succeeds, the draft row is removed and exactly one new
outbound, approved, sent Message row has been appended. -/
theorem C2_send_failure (s : Store) (id fromEmail newDbId newThreadId pmid : String)
    (d : Draft) (t : String) (now : Nat)
    (hd : getDraft s id = some d) (ht : d.«to» = some t) (htne : t ≠ "") :
    sendDraft s id (.error ()) fromEmail newDbId newThreadId now = (.upstreamFailure, s)
  ∧ (sendDraft s id (.ok pmid) fromEmail newDbId newThreadId now).2.drafts
      = s.drafts.filter (fun d2 => !(d2.id == id))
  ∧ ∃ m : Msg,
      (sendDraft s id (.ok pmid) fromEmail newDbId newThreadId now).2.messages
        = s.messages ++ [m]
      ∧ m.approved = 1 ∧ m.direction = .outbound ∧ m.status = some "sent" := by
  refine ⟨?_, ?_, ?_⟩
  · simp [sendDraft, hd, ht, htne, sendEmailSpec]
  · simp [sendDraft, hd, ht, htne, sendEmailSpec]
  · simp only [sendDraft, hd, ht, htne, sendEmailSpec, if_neg htne]
    exact ⟨_, rfl, rfl, rfl, rfl⟩

/-- C2, witness: the theorem applied to the concrete one-draft store. -/
theorem C2_send_failure_witness :
    sendDraft exStoreC2 "d1" (.error ()) "me@x" "db9" "T9" 9 = (.upstreamFailure, exStoreC2)
  ∧ (sendDraft exStoreC2 "d1" (.ok "pm9") "me@x" "db9" "T9" 9).2.drafts
      = exStoreC2.drafts.filter (fun d2 => !(d2.id == "d1"))
  ∧ ∃ m : Msg,
      (sendDraft exStoreC2 "d1" (.ok "pm9") "me@x" "db9" "T9" 9).2.messages
        = exStoreC2.messages ++ [m]
      ∧ m.approved = 1 ∧ m.direction = .outbound ∧ m.status = some "sent" :=
  C2_send_failure exStoreC2 "d1" "me@x" "db9" "T9" "pm9" exDraft "bob@example.com" 9
    (by decide) (by decide) (by decide)

/-- First message of the spec's threading example: message_id "a", no
in_reply_to. -/
def cm1 : Msg :=
  { id := "M1", thread_id := "T", message_id := some "a", in_reply_to := none,
    «from» := "x@y", «to» := "me@y", cc := none, bcc := none, subject := "s",
    body_text := none, body_html := none, headers := none, direction := .inbound,
    approved := 1, status := none, archived := 0, created_at := 1 }

/-- Second message of the example: message_id "b", in_reply_to "a". -/
def cm2 : Msg :=
  { cm1 with
    id := "M2", message_id := some "b", in_reply_to := some "a", created_at := 2 }

/-- A third reply as the code itself would persist it: message_id "c",
in_reply_to "b" (the messages table stores no references chain). -/
def cm3 : Msg :=
  { cm1 with
    id := "M3", message_id := some "c", in_reply_to := some "b", created_at := 3 }

/-- A store holding the first two example messages. -/
def exStoreC3 : Store :=
  { threads := [⟨"T", "s", 2, 2, 1⟩], messages := [cm1, cm2], attachments := [],
    approved_senders := [], message_labels := [], drafts := [] }

/-- C3, counterexample to the claim as stated: the send that produced cm3
was given references "a b" (first conjunct), so cm3's own references
chain is "a b" and the claim's algorithm demands "a b" ++ " " ++ "c" =
"a b c" for the next send of the thread; the code, reading only the
`in_reply_to` column of the latest row, produces "b c". -/
theorem C3_threading_counterexample :
    threadCtx [cm1, cm2] (some "T") = ⟨some "b", some "a b", some "T"⟩
  ∧ threadCtx [cm1, cm2, cm3] (some "T") = ⟨some "c", some "b c", some "T"⟩
  ∧ ("b c" : String) ≠ "a b" ++ " " ++ "c" := by
  decide

/-- C3 (amended): the latest-created message of the thread is selected;
if its message_id is non-null it becomes in_reply_to, and references is
that row's `in_reply_to` value followed by its message_id (just the
message_id when in_reply_to is null) — the stored chain is at most the
last two provider ids, not the full references chain. -/
theorem C3_threading_amended (s : Store) (tid : String) (m : Msg) (mid : String)
    (h : latestInThread s.messages tid = some m) (hmid : m.message_id = some mid) :
    threadCtx s.messages (some tid)
      = ⟨some mid,
         some (match m.in_reply_to with | some r => r ++ " " ++ mid | none => mid),
         some tid⟩
  ∧ m ∈ s.messages ∧ m.thread_id = tid
  ∧ ∀ x ∈ s.messages, x.thread_id = tid → x.created_at ≤ m.created_at := by
  obtain ⟨h1, h2, h3⟩ := latestInThread_spec h
  refine ⟨?_, h1, h2, h3⟩
  simp [threadCtx, h, hmid]

/-- C3, witness: the amended theorem at the spec's M1/M2 example, giving
in_reply_to "b" and references "a b" for the third send. -/
theorem C3_threading_witness :
    threadCtx exStoreC3.messages (some "T") = ⟨some "b", some "a b", some "T"⟩
  ∧ cm2 ∈ exStoreC3.messages := by
  have h := C3_threading_amended exStoreC3 "T" cm2 "b" (by decide) (by decide)
  exact ⟨h.1, h.2.1⟩

/-- The DESC sort is sorted by created_at descending. -/
theorem pairwise_sortDescCreated (l : List Msg) :
    (sortDescCreated l).Pairwise (fun a b => b.created_at ≤ a.created_at) := by
  have h := @pairwise_sortBy Msg
    (fun a b : Msg => decide (b.created_at ≤ a.created_at))
    (fun a b c hab hbc => by
      simp only [decide_eq_true_eq] at hab hbc ⊢
      omega)
    (fun a b => by
      simp only [Bool.or_eq_true, decide_eq_true_eq]
      omega) l
  exact h.imp (fun hx => by simpa using hx)

/-- Every prefix of the shared LIKE fallback stays sorted by created_at
descending. -/
theorem pairwise_likeFallback (s : Store) (pat : String) (lim : Nat) (incArch : Bool) :
    (likeFallback s pat lim incArch).Pairwise (fun a b => b.created_at ≤ a.created_at) :=
  List.Pairwise.sublist (List.take_sublist _ _) (pairwise_sortDescCreated _)

/-- C4: with the FTS evaluation raising (the invalid-syntax case),
`searchMessages` answers — it does not raise — with exactly the escaped
LIKE fallback, whose rows all satisfy approved = 1 and, unless
includeArchived, archived = 0, ordered by created_at descending. -/
theorem C4_fallback_filters (s : Store) (q : String) (lim : Nat) (incArch : Bool)
    (rank : Msg → Nat) :
    searchMessages s q lim incArch (.error ()) rank = searchFallbackLib s q lim incArch
  ∧ (∀ m ∈ searchFallbackLib s q lim incArch,
      m.approved = 1 ∧ (incArch = false → m.archived = 0))
  ∧ (searchFallbackLib s q lim incArch).Pairwise
      (fun a b => b.created_at ≤ a.created_at) := by
  refine ⟨rfl, ?_, pairwise_likeFallback _ _ _ _⟩
  intro m hm
  exact ⟨(mem_likeFallback hm).2.1, (mem_likeFallback hm).2.2⟩

/-- C5 (amended): GET /api/search answers InvalidInput exactly for a
missing or empty query; any other query — whitespace-only included —
reaches the primary or fallback path. -/
theorem C5_empty_query_amended (s : Store) (q : Option String) (lim : Nat)
    (incArch : Bool) (fts : Except Unit (Msg → Bool)) (rank : Msg → Nat) :
    apiSearch s q lim incArch fts rank = .invalidInput ↔ (q = none ∨ q = some "") := by
  cases q with
  | none => simp [apiSearch]
  | some qs =>
    by_cases hq : qs = ""
    · subst hq
      simp [apiSearch]
    · cases fts with
      | ok f => simp [apiSearch, hq]
      | error e => simp [apiSearch, hq]

/-- C5, counterexample to the claim as stated: the whitespace-only query
" " is not rejected; the handler runs the primary path (and, were the
FTS call to throw, the fallback), never answering InvalidInput. -/
theorem C5_empty_query_counterexample :
    apiSearch emptyStore (some " ") 20 false (.ok (fun _ => true)) (fun _ => 0)
      = .primary []
  ∧ apiSearch emptyStore (some " ") 20 false (.error ()) (fun _ => 0)
      = .fallback []
  ∧ SearchOut.primary ([] : List Msg) ≠ .invalidInput := by
  decide

/-- After an approve, no message of that sender is still pending. -/
theorem approve_clears_pending (s : Store) (email : String) (n : Option String) (t : Nat) :
    ∀ x ∈ (approve s email n t).1.messages,
      (x.«from» == email.toLower && x.approved == 0) = false := by
  intro x hx
  simp only [approve] at hx
  obtain ⟨y, hy, rfl⟩ := List.mem_map.mp hx
  by_cases hhit : (y.«from» == email.toLower && y.approved == 0) = true
  · rw [if_pos hhit]
    simp
  · rw [if_neg hhit]
    simp only [Bool.not_eq_true] at hhit
    exact hhit

/-- After an approve, the allow-list holds an entry for the sender. -/
theorem approve_has_sender (s : Store) (email : String) (n : Option String) (t : Nat) :
    ((approve s email n t).1.approved_senders.any
      (fun e => e.email == email.toLower)) = true := by
  simp only [approve]
  by_cases hany : (s.approved_senders.any (fun e => e.email == email.toLower)) = true
  · rw [if_pos hany]
    obtain ⟨e, he, hpe⟩ := List.any_eq_true.mp hany
    apply List.any_eq_true.mpr
    refine ⟨if e.email == email.toLower then {e with name := n} else e,
      List.mem_map_of_mem _ he, ?_⟩
    rw [if_pos hpe]
    simpa using hpe
  · rw [if_neg hany]
    apply List.any_eq_true.mpr
    exact ⟨⟨email.toLower, n, t⟩, by simp, by simp⟩

/-- Unfolding of the count an approve reports. -/
theorem approve_count (s : Store) (email : String) (n : Option String) (t : Nat) :
    (approve s email n t).2
      = (s.messages.filter
          (fun m => m.«from» == email.toLower && m.approved == 0)).length := rfl

/-- Unfolding of the message table an approve leaves. -/
theorem approve_messages (s : Store) (email : String) (n : Option String) (t : Nat) :
    (approve s email n t).1.messages
      = s.messages.map (fun m =>
          if m.«from» == email.toLower && m.approved == 0
          then {m with approved := 1} else m) := rfl

/-- When the sender is already allow-listed, an approve maps the
allow-list, rewriting only `name` on the matching entries. -/
theorem approve_senders_update (s : Store) (email : String) (n : Option String) (t : Nat)
    (h : (s.approved_senders.any (fun e => e.email == email.toLower)) = true) :
    (approve s email n t).1.approved_senders
      = s.approved_senders.map
          (fun e => if e.email == email.toLower then {e with name := n} else e) := by
  simp only [approve]
  rw [if_pos h]

/-- C6: approving the same sender twice in a row reports approved_count 0
the second time, changes no message, rewrites only the `name` of matching
allow-list entries, and leaves the entry's name equal to the last value
provided. -/
theorem C6_approve_idempotent (s : Store) (email : String) (n1 n2 : Option String)
    (t1 t2 : Nat) :
    (approve (approve s email n1 t1).1 email n2 t2).2 = 0
  ∧ (approve (approve s email n1 t1).1 email n2 t2).1.messages
      = (approve s email n1 t1).1.messages
  ∧ (approve (approve s email n1 t1).1 email n2 t2).1.approved_senders
      = (approve s email n1 t1).1.approved_senders.map
          (fun e => if e.email == email.toLower then {e with name := n2} else e)
  ∧ (∀ e ∈ (approve (approve s email n1 t1).1 email n2 t2).1.approved_senders,
        e.email = email.toLower → e.name = n2)
  ∧ (∃ e ∈ (approve (approve s email n1 t1).1 email n2 t2).1.approved_senders,
        e.email = email.toLower ∧ e.name = n2) := by
  have hclear := approve_clears_pending s email n1 t1
  have hsender := approve_has_sender s email n1 t1
  have hfilter : ((approve s email n1 t1).1.messages.filter
      (fun m => m.«from» == email.toLower && m.approved == 0)) = [] := by
    apply List.filter_eq_nil_iff.mpr
    intro a ha
    rw [hclear a ha]
    decide
  have hmap : ((approve s email n1 t1).1.messages.map
      (fun m => if m.«from» == email.toLower && m.approved == 0
                then {m with approved := 1} else m))
        = (approve s email n1 t1).1.messages := by
    apply map_eq_self_of_fix
    intro x hx
    rw [if_neg (by rw [hclear x hx]; decide)]
  have hsenders : (approve (approve s email n1 t1).1 email n2 t2).1.approved_senders
      = (approve s email n1 t1).1.approved_senders.map
          (fun e => if e.email == email.toLower then {e with name := n2} else e) :=
    approve_senders_update _ email n2 t2 hsender
  refine ⟨?_, ?_, hsenders, ?_, ?_⟩
  · rw [approve_count, hfilter]
    rfl
  · rw [approve_messages]
    exact hmap
  · intro e he hee
    rw [hsenders] at he
    obtain ⟨f, hf, rfl⟩ := List.mem_map.mp he
    by_cases hfe : (f.email == email.toLower) = true
    · rw [if_pos hfe]
    · rw [if_neg hfe] at hee ⊢
      exact absurd hee (by simpa using hfe)
  · obtain ⟨f, hf, hpf⟩ := List.any_eq_true.mp hsender
    refine ⟨{f with name := n2}, ?_, by simpa using hpf, rfl⟩
    rw [hsenders]
    have : {f with name := n2}
        = (fun e => if e.email == email.toLower then {e with name := n2} else e) f := by
      simp only []
      rw [if_pos hpf]
    rw [this]
    exact List.mem_map_of_mem _ hf

/-- C7: revoking a sender deletes only the matching allow-list rows;
messages — their approved flags included — threads, attachments, labels
and drafts are untouched. -/
theorem C7_revoke_frame (s : Store) (email : String) :
    (revoke s email).1.messages = s.messages
  ∧ (revoke s email).1.threads = s.threads
  ∧ (revoke s email).1.attachments = s.attachments
  ∧ (revoke s email).1.message_labels = s.message_labels
  ∧ (revoke s email).1.drafts = s.drafts
  ∧ (revoke s email).1.approved_senders
      = s.approved_senders.filter (fun e => !(e.email == email.toLower))
  ∧ (revoke s email).2 = email.toLower :=
  ⟨rfl, rfl, rfl, rfl, rfl, rfl, rfl⟩

/-- The set of labels a message carries. -/
def labelFinset (s : Store) (mid : String) : Finset String :=
  ((s.message_labels.filter (fun r => r.message_id == mid)).map
    (fun r => r.label)).toFinset

/-- Membership in a message's label set, as an `any` over the rows. -/
theorem mem_labelFinset {s : Store} {mid lab : String} :
    lab ∈ labelFinset s mid ↔
      (s.message_labels.any (fun r => r.message_id == mid && r.label == lab)) = true := by
  simp only [labelFinset, List.mem_toFinset, List.mem_map, List.mem_filter,
    List.any_eq_true, Bool.and_eq_true, beq_iff_eq]
  constructor
  · rintro ⟨r, ⟨hr, hmid⟩, hlab⟩
    exact ⟨r, hr, hmid, hlab⟩
  · rintro ⟨r, hr, hmid, hlab⟩
    exact ⟨r, ⟨hr, hmid⟩, hlab⟩

/-- C8: adding labels to an approved message succeeds, and the message's
resulting label set is exactly the old set united with the set of the
input list — duplicates in the input and already-present labels are
no-ops, and the input's order is irrelevant to the set. -/
theorem C8_addLabels_set (s : Store) (m : Msg) (labels : List String) (now : Nat)
    (hm : m ∈ s.messages) (h1 : m.approved = 1)
    (hnd : (s.messages.map Msg.id).Nodup) (_hne : labels ≠ []) :
    ((addLabels s m.id labels now).1).isSome = true
  ∧ labelFinset (addLabels s m.id labels now).2 m.id
      = labelFinset s m.id ∪ labels.toFinset := by
  have hfind := find?_msg_id hnd hm
  constructor
  · simp [addLabels, hfind, h1]
  · have h2 : (addLabels s m.id labels now).2.message_labels
        = labels.foldl (fun acc l => insertLabelIfAbsent acc m.id l now)
            s.message_labels := by
      simp [addLabels, hfind, h1]
    apply Finset.ext
    intro lab
    rw [Finset.mem_union, mem_labelFinset, mem_labelFinset, List.mem_toFinset, h2]
    rw [labelFold_any]
    rw [Bool.or_eq_true]
    constructor
    · rintro (h | h)
      · exact Or.inl h
      · exact Or.inr (List.elem_iff.mp h)
    · rintro (h | h)
      · exact Or.inl h
      · exact Or.inr (List.elem_iff.mpr h)

/-- An approved message with no labels yet. -/
def exApproved : Msg :=
  { exPending with id := "m2", approved := 1 }

/-- A store holding only that approved message. -/
def exStoreC8 : Store :=
  { threads := [⟨"T", "hello", 5, 1, 5⟩], messages := [exApproved], attachments := [],
    approved_senders := [], message_labels := [], drafts := [] }

/-- C8, witness: the theorem at the spec's example — addLabels with
["x","x","y"] on a label-free approved message yields the label set
{x, y}. -/
theorem C8_addLabels_set_witness :
    (((addLabels exStoreC8 exApproved.id ["x", "x", "y"] 9).1).isSome = true
  ∧ labelFinset (addLabels exStoreC8 exApproved.id ["x", "x", "y"] 9).2 exApproved.id
      = labelFinset exStoreC8 exApproved.id ∪ (["x", "x", "y"] : List String).toFinset)
  ∧ labelFinset (addLabels exStoreC8 exApproved.id ["x", "x", "y"] 9).2 exApproved.id
      = {"x", "y"} := by
  constructor
  · exact C8_addLabels_set exStoreC8 exApproved ["x", "x", "y"] 9
      (by decide) (by decide) (by decide) (by decide)
  · decide

/-- C9, counterexample to the claim as stated: deleting a draft id that
does not exist through DELETE /api/drafts/:id answers `deleted`, not
NotFound — the handler never checks existence. -/
theorem C9_delete_draft_counterexample :
    emptyStore.drafts = []
  ∧ (apiDeleteDraft emptyStore "d1").1 = .deleted "d1"
  ∧ (apiDeleteDraft emptyStore "d1").1 ≠ .notFound := by
  decide

/-- C9 (amended): the library function `deleteDraft` reports absence
(false, store untouched) and otherwise removes the row and reports true;
the DELETE /api/drafts/:id route, by contrast, removes unconditionally
and always reports success. -/
theorem C9_delete_draft_amended (s : Store) (id : String) :
    (s.drafts.find? (fun d => d.id == id) = none →
      deleteDraft s id = (false, s))
  ∧ (∀ d, s.drafts.find? (fun d2 => d2.id == id) = some d →
      deleteDraft s id
        = (true, {s with drafts := s.drafts.filter (fun d2 => !(d2.id == id))}))
  ∧ apiDeleteDraft s id
      = (.deleted id, {s with drafts := s.drafts.filter (fun d2 => !(d2.id == id))}) := by
  refine ⟨?_, ?_, rfl⟩
  · intro h
    simp [deleteDraft, h]
  · intro d hd
    simp [deleteDraft, hd]

/-- C9, witness: the amended theorem at a one-draft store, for a present
and for an absent id. -/
theorem C9_delete_draft_witness :
    deleteDraft exStoreC2 "d1"
      = (true, {exStoreC2 with drafts := exStoreC2.drafts.filter (fun d2 => !(d2.id == "d1"))})
  ∧ deleteDraft exStoreC2 "nope" = (false, exStoreC2)
  ∧ apiDeleteDraft exStoreC2 "nope"
      = (.deleted "nope", {exStoreC2 with drafts := exStoreC2.drafts.filter (fun d2 => !(d2.id == "nope"))}) :=
  ⟨(C9_delete_draft_amended exStoreC2 "d1").2.1 exDraft (by decide),
    (C9_delete_draft_amended exStoreC2 "nope").1 (by decide),
    (C9_delete_draft_amended exStoreC2 "nope").2.2⟩

/-- An approved, unarchived message with subject "hello", for the LIKE
comparison. -/
def exSearchMsg : Msg :=
  { exPending with id := "m3", approved := 1, subject := "hello", body_text := none }

/-- A store holding only that message. -/
def exStoreC10 : Store :=
  { threads := [⟨"T", "hello", 5, 1, 5⟩], messages := [exSearchMsg], attachments := [],
    approved_senders := [], message_labels := [], drafts := [] }

/-- C10, counterexample to the claim as stated: on the query "%" the two
fallbacks differ over the same store — the api.ts fallback interpolates
"%" unescaped, so its pattern matches every row, while searchMessages
escapes it and its pattern then matches no row of this store. -/
theorem C10_fallback_counterexample :
    searchFallbackApi exStoreC10 "%" 20 false = [exSearchMsg]
  ∧ searchFallbackLib exStoreC10 "%" 20 false = []
  ∧ ([exSearchMsg] : List Msg) ≠ [] := by
  decide

/-- C10 (amended): the search.ts fallback escapes the query with
`escapeLike` while the api.ts fallback interpolates it unescaped; the two
coincide whenever the query contains none of `%`, `_`, backslash, for
then `escapeLike` is the identity and both build the same pattern — while
on queries containing a metacharacter the returned sets can differ, as
the counterexample shows. -/
theorem C10_fallback_agreement (s : Store) (q : String) (lim : Nat) (incArch : Bool)
    (h : q.data.all (fun c => !(c == '%' || c == '_' || c == '\\')) = true) :
    searchFallbackLib s q lim incArch = searchFallbackApi s q lim incArch := by
  unfold searchFallbackLib searchFallbackApi
  rw [escapeLike_eq_self h]

/-- C10, witness: on the metacharacter-free query "hello" the two
fallbacks agree on the concrete store. -/
theorem C10_fallback_agreement_witness :
    searchFallbackLib exStoreC10 "hello" 20 false
      = searchFallbackApi exStoreC10 "hello" 20 false :=
  C10_fallback_agreement exStoreC10 "hello" 20 false (by decide)
